import Mathlib

/-!
# better-copy: copy engine and verifier

A shallow embedding of `src/main.cpp` (`copyFile`, `verifyFiles`, `main`) and
the properties of it that the specification states.

Modelling conventions

* A file is the list of its bytes; the file system maps a path (a string) to a
  regular file, a directory, or nothing.  Two different strings are two
  different files (no links, no case folding).
* `std::ifstream` is a record of the file's bytes, the get position, the value
  of `gcount()` and the `eofbit` / `failbit` flags.  `read` follows the
  standard's unformatted-input rules: the sentry fails on a stream that is not
  `good()`, and a read that meets end of file before `n` characters sets
  `eofbit | failbit` and leaves the number of characters stored in `gcount()`.
* A `char buffer[4096]` is represented by the bytes the latest read stored in
  it; the code only ever reads back its first `gcount()` bytes.
* `size_t` is 64 bits wide: arithmetic on it is taken modulo `2 ^ 64`.
* Reads and writes on an open stream do not fail (no I/O faults), wall-clock
  time and the floating-point speed passed to `showProgress` are left out.
-/

namespace BetterCopy

set_option linter.unusedVariables false

/-! ## Data model -/

/-- One `char` of a file, as `memcmp` sees it (an unsigned value below 256). -/
abbrev Byte := Fin 256

/-- The value of `sizeof(buffer)` for `char buffer[4096]`. -/
def BUFFER_SIZE : Nat := 4096

/-- Number of values of `size_t`. -/
def SIZE_MOD : Nat := 2 ^ 64

/-- What a path names. -/
inductive Node where
  | file (bytes : List Byte)
  | dir
  deriving DecidableEq, Repr

/-- The file system: what each path names, if anything. -/
abbrev FileSystem := String → Option Node

/-- State of a `std::ifstream`. -/
structure IfStream where
  isOpen : Bool
  data : List Byte
  pos : Nat
  gcount : Nat
  eofbit : Bool
  failbit : Bool
  deriving DecidableEq, Repr

/-- State of a `std::ofstream`: the bytes written to it so far. -/
structure OfStream where
  isOpen : Bool
  written : List Byte
  deriving DecidableEq, Repr

/-- `std::ifstream s(path, std::ios::binary)`: opens a regular file for reading;
`gcount()` of a new stream is 0. -/
def IfStream.open (fs : FileSystem) (path : String) : IfStream :=
  match fs path with
  | some (Node.file bytes) =>
    { isOpen := true, data := bytes, pos := 0, gcount := 0, eofbit := false, failbit := false }
  | _ =>
    { isOpen := false, data := [], pos := 0, gcount := 0, eofbit := false, failbit := true }

/-- `std::ofstream s(path, std::ios::binary)`: creates the file or truncates it
to length 0; a directory cannot be opened. -/
def OfStream.open (fs : FileSystem) (path : String) : FileSystem × OfStream :=
  match fs path with
  | some Node.dir => (fs, { isOpen := false, written := [] })
  | _ => (fun p => if p = path then some (Node.file []) else fs p,
          { isOpen := true, written := [] })

/-- `s.read(buffer, n)`: the stream afterwards and the bytes stored in the
buffer.  On a stream that is not `good()` nothing is stored, `gcount()` is 0
and `failbit` is set. -/
def IfStream.read (s : IfStream) (n : Nat) : IfStream × List Byte :=
  if s.eofbit || s.failbit then
    ({ s with gcount := 0, failbit := true }, [])
  else
    let chunk := (s.data.drop s.pos).take n
    if chunk.length < n then
      ({ s with pos := s.pos + chunk.length, gcount := chunk.length,
                eofbit := true, failbit := true }, chunk)
    else
      ({ s with pos := s.pos + chunk.length, gcount := chunk.length }, chunk)

/-- `s.seekg(0, std::ios::end)`: clears `eofbit`, then moves unless `fail()`. -/
def IfStream.seekgEnd (s : IfStream) : IfStream :=
  if s.failbit then { s with eofbit := false }
  else { s with eofbit := false, pos := s.data.length }

/-- `s.seekg(0, std::ios::beg)`. -/
def IfStream.seekgBeg (s : IfStream) : IfStream :=
  if s.failbit then { s with eofbit := false }
  else { s with eofbit := false, pos := 0 }

/-- `s.tellg()`: the get position, or -1 when `fail()`. -/
def IfStream.tellg (s : IfStream) : Int :=
  if s.failbit then -1 else (s.pos : Int)

/-- Conversion of a stream offset to `size_t`. -/
def toSizeT (z : Int) : Nat := (z % (SIZE_MOD : Int)).toNat

/-- `s.write(buffer, count)`: appends the first `count` bytes of the buffer. -/
def OfStream.write (s : OfStream) (buffer : List Byte) (count : Nat) : OfStream :=
  { s with written := s.written ++ buffer.take count }

/-- Closing the `std::ofstream` (its destructor): the file holds what was written. -/
def OfStream.close (fs : FileSystem) (path : String) (s : OfStream) : FileSystem :=
  fun p => if p = path then some (Node.file s.written) else fs p

/-! ## copyFile -/

/-- One call of `showProgress(bytesRead, totalSize, speed)`, without the speed. -/
structure Progress where
  bytesTransferred : Nat
  totalSizeBytes : Nat
  deriving DecidableEq, Repr

/-- Local variables of `copyFile` while it streams; `iterations` counts the
executions of the loop body. -/
structure CopyState where
  src : IfStream
  dst : OfStream
  buffer : List Byte
  bytesRead : Nat
  reports : List Progress
  iterations : Nat
  deriving DecidableEq, Repr

/-- The loop `while (src.read(buffer, sizeof(buffer))) { write; count; showProgress }`.
The stream returned by `read` stands for `!fail()` in the loop condition. -/
def copyLoop (totalSize : Nat) (st : CopyState) : CopyState :=
  let r := st.src.read BUFFER_SIZE
  if h : r.1.failbit = false then
    let dst := st.dst.write r.2 r.1.gcount
    let bytesRead := (st.bytesRead + r.1.gcount) % SIZE_MOD
    copyLoop totalSize
      { src := r.1, dst := dst, buffer := r.2, bytesRead := bytesRead,
        reports := st.reports ++ [⟨bytesRead, totalSize⟩],
        iterations := st.iterations + 1 }
  else
    { st with src := r.1, buffer := r.2 }
termination_by st.src.data.length - st.src.pos
decreasing_by
  have hr : (st.src.read BUFFER_SIZE).1.failbit = false := h
  show (st.src.read BUFFER_SIZE).1.data.length - (st.src.read BUFFER_SIZE).1.pos <
    st.src.data.length - st.src.pos
  unfold IfStream.read at hr ⊢
  by_cases hg : (st.src.eofbit || st.src.failbit) = true
  · rw [if_pos hg] at hr
    exact absurd hr (by simp)
  · rw [if_neg hg] at hr ⊢
    by_cases hl : ((st.src.data.drop st.src.pos).take BUFFER_SIZE).length < BUFFER_SIZE
    · simp only [if_pos hl] at hr
      exact absurd hr (by simp)
    · simp only [if_neg hl]
      simp only [List.length_take, List.length_drop, BUFFER_SIZE] at hl ⊢
      omega

/-- What `copyFile` leaves behind: the file system, the calls of `showProgress`
in order, the number of loop iterations, and whether it ran to "Copy completed!"
(`false`: "Error opening files!"). -/
structure CopyResult where
  fs : FileSystem
  reports : List Progress
  iterations : Nat
  completed : Bool

/-- The function `copyFile(source, destination)`. -/
def copyFile (fs : FileSystem) (source destination : String) : CopyResult :=
  let src0 := IfStream.open fs source
  let (fs1, dst0) := OfStream.open fs destination
  if !src0.isOpen || !dst0.isOpen then
    { fs := fs1, reports := [], iterations := 0, completed := false }
  else
    -- nothing was read from the source before the destination was opened (and
    -- truncated): the stream delivers the bytes the source file holds after that
    let src1 := IfStream.open fs1 source
    let src2 := src1.seekgEnd
    let totalSize := toSizeT src2.tellg
    let src3 := src2.seekgBeg
    let st := copyLoop totalSize
      { src := src3, dst := dst0, buffer := [], bytesRead := 0, reports := [], iterations := 0 }
    let dst := st.dst.write st.buffer st.src.gcount
    let bytesRead := (st.bytesRead + st.src.gcount) % SIZE_MOD
    { fs := OfStream.close fs1 destination dst,
      reports := st.reports ++ [⟨bytesRead, totalSize⟩],
      iterations := st.iterations,
      completed := true }

/-! ## verifyFiles -/

/-- The function `::memcmp(a, b, n)` on the stored bytes of two buffers: 0 when
the first `n` bytes agree, otherwise the sign of the first difference. -/
def memcmp : List Byte → List Byte → Nat → Int
  | _, _, 0 => 0
  | [], _, _ + 1 => 0
  | _ :: _, [], _ + 1 => 0
  | a :: as, b :: bs, n + 1 =>
    if a < b then -1 else if b < a then 1 else memcmp as bs n

/-- Local variables of `verifyFiles` while it streams. -/
structure VerifyState where
  src : IfStream
  dst : IfStream
  srcBuffer : List Byte
  dstBuffer : List Byte
  deriving DecidableEq, Repr

/-- The loop of `verifyFiles`.  `some b`: the body executed `return b`;
`none`: the loop condition became false.  The condition is
`src.read(..) && dst.read(..)`, each stream standing for `!fail()`: the
destination is read only when the read of the source succeeded. -/
def verifyLoop (st : VerifyState) : Option Bool × VerifyState :=
  let rs := st.src.read BUFFER_SIZE
  if h : rs.1.failbit = false then
    let rd := st.dst.read BUFFER_SIZE
    if rd.1.failbit = false then
      if rs.1.gcount ≠ rd.1.gcount ∨ memcmp rs.2 rd.2 rs.1.gcount ≠ 0 then
        (some false, { src := rs.1, dst := rd.1, srcBuffer := rs.2, dstBuffer := rd.2 })
      else
        verifyLoop { src := rs.1, dst := rd.1, srcBuffer := rs.2, dstBuffer := rd.2 }
    else
      (none, { src := rs.1, dst := rd.1, srcBuffer := rs.2, dstBuffer := rd.2 })
  else
    (none, { st with src := rs.1, srcBuffer := rs.2 })
termination_by st.src.data.length - st.src.pos
decreasing_by
  have hr : (st.src.read BUFFER_SIZE).1.failbit = false := h
  show (st.src.read BUFFER_SIZE).1.data.length - (st.src.read BUFFER_SIZE).1.pos <
    st.src.data.length - st.src.pos
  unfold IfStream.read at hr ⊢
  by_cases hg : (st.src.eofbit || st.src.failbit) = true
  · rw [if_pos hg] at hr
    exact absurd hr (by simp)
  · rw [if_neg hg] at hr ⊢
    by_cases hl : ((st.src.data.drop st.src.pos).take BUFFER_SIZE).length < BUFFER_SIZE
    · simp only [if_pos hl] at hr
      exact absurd hr (by simp)
    · simp only [if_neg hl]
      simp only [List.length_take, List.length_drop, BUFFER_SIZE] at hl ⊢
      omega

/-- The function `verifyFiles(source, destination)`. -/
def verifyFiles (fs : FileSystem) (source destination : String) : Bool :=
  let src := IfStream.open fs source
  let dst := IfStream.open fs destination
  if !src.isOpen || !dst.isOpen then
    false
  else
    match verifyLoop { src := src, dst := dst, srcBuffer := [], dstBuffer := [] } with
    | (some b, _) => b
    | (none, st) =>
      -- Check for any remaining bytes
      if st.src.gcount ≠ st.dst.gcount then false else true

/-! ## main -/

/-- The variables `verify`, `overwrite`, `skip`, `source`, `destination` of `main`. -/
structure Options where
  verify : Bool
  overwrite : Bool
  skip : Bool
  source : String
  destination : String
  deriving DecidableEq, Repr

/-- Their initial values. -/
def Options.initial : Options :=
  { verify := false, overwrite := false, skip := false, source := "", destination := "" }

/-- The argument loop of `main` over `argv[1..]`; `none` when it meets `/?`
(help is shown and `main` returns 0). -/
def parseArgs : List String → Options → Option Options
  | [], o => some o
  | arg :: rest, o =>
    if arg = "/v" then parseArgs rest { o with verify := true }
    else if arg = "/y" then parseArgs rest { o with overwrite := true }
    else if arg = "/n" then parseArgs rest { o with skip := true }
    else if arg = "/?" then none
    else if o.source = "" then parseArgs rest { o with source := arg }
    else parseArgs rest { o with destination := arg }

/-- What `main` takes from its surroundings besides the file system: the
current directory, the two `std::filesystem` path operations it uses, and the
character typed at the overwrite prompt. -/
structure Env where
  cwd : String
  filename : String → String
  pathAppend : String → String → String
  response : Char

/-- The function `getCurrentDirectory()`. -/
def getCurrentDirectory (env : Env) : String := env.cwd

/-- The function `getFileName(path)`: `fs::path(path).filename().string()`. -/
def getFileName (env : Env) (path : String) : String := env.filename path

/-- The function `fileExists(path)`: `fs::exists(path)`. -/
def fileExists (fs : FileSystem) (path : String) : Bool := (fs path).isSome

/-- The function `isDirectory(path)`: `fs::is_directory(path)`. -/
def isDirectory (fs : FileSystem) (path : String) : Bool :=
  match fs path with
  | some Node.dir => true
  | _ => false

/-- The function `askForOverwrite()`. -/
def askForOverwrite (env : Env) : Bool :=
  env.response = 'y' || env.response = 'Y'

/-- The test `fopen(source.c_str(), "r")` of `main`: a regular file opens. -/
def fopenRead (fs : FileSystem) (path : String) : Bool :=
  match fs path with
  | some (Node.file _) => true
  | _ => false

/-- The path separator that `main` puts after the current directory. -/
def backslash : String := String.singleton (Char.ofNat 92)

/-- What `main` does that can be observed, in order. -/
inductive Event where
  | showHelp
  | usageError
  | skippingCopy
  | overwritePrompt
  | cancelled
  | sourceMissing
  | copyFileCall (source destination : String) (reports : List Progress) (completed : Bool)
  | verificationSuccessful
  | verificationFailed
  deriving DecidableEq, Repr

/-- Whether the event is a call of `copyFile`. -/
def Event.isCopy : Event → Bool
  | Event.copyFileCall _ _ _ _ => true
  | _ => false

/-- Result of `main`: exit code, the file system it leaves, what it did. -/
structure MainResult where
  exitCode : Int
  fs : FileSystem
  events : List Event

/-- The `if (verifyFiles(source, destination))` report of `main`. -/
def verifyReport (fs : FileSystem) (source destination : String) : Event :=
  if verifyFiles fs source destination then Event.verificationSuccessful
  else Event.verificationFailed

/-- The destination `main` works with (lines 193-202). -/
def resolveDestination (env : Env) (fs : FileSystem) (o : Options) : String :=
  if o.destination = "" then
    getCurrentDirectory env ++ backslash ++ getFileName env o.source
  else if isDirectory fs o.destination then
    env.pathAppend o.destination (getFileName env o.source)
  else
    o.destination

/-- The end of `main` (lines 235-259): the test that the source opens, the
copy, the optional verification.  `pre` is what was done before. -/
def mainCopy (fs : FileSystem) (o : Options) (destination : String)
    (pre : List Event) : MainResult :=
  if fopenRead fs o.source then
    let r := copyFile fs o.source destination
    let events := pre ++ [Event.copyFileCall o.source destination r.reports r.completed]
    if o.verify then
      { exitCode := 0, fs := r.fs,
        events := events ++ [verifyReport r.fs o.source destination] }
    else
      { exitCode := 0, fs := r.fs, events := events }
  else
    { exitCode := 1, fs := fs, events := pre ++ [Event.sourceMissing] }

/-- The function `main(argc, argv)`; `argv` includes the program name. -/
def main (env : Env) (fs : FileSystem) (argv : List String) : MainResult :=
  match parseArgs (argv.drop 1) Options.initial with
  | none => { exitCode := 0, fs := fs, events := [Event.showHelp] }
  | some o =>
    if o.source = "" then
      { exitCode := 1, fs := fs, events := [Event.usageError] }
    else
      let destination := resolveDestination env fs o
      let fileExistsFlag := fileExists fs destination
      if fileExistsFlag then
        if o.skip then
          -- Still verify if /v is provided
          if o.verify then
            { exitCode := 0, fs := fs,
              events := [Event.skippingCopy, verifyReport fs o.source destination] }
          else
            { exitCode := 0, fs := fs, events := [Event.skippingCopy] }
        else if !o.overwrite then
          if !askForOverwrite env then
            { exitCode := 0, fs := fs, events := [Event.overwritePrompt, Event.cancelled] }
          else
            mainCopy fs o destination [Event.overwritePrompt]
        else
          mainCopy fs o destination []
      else
        mainCopy fs o destination []

/-! ## Predicates used in the statements -/

/-- The reports are non-decreasing in `bytesTransferred`. -/
def NonDecreasing (reports : List Progress) : Prop :=
  reports.Pairwise (fun a b => a.bytesTransferred ≤ b.bytesTransferred)

/-- Every report names `totalSize` as the total and has transferred at most
`bound` bytes, and the reports are non-decreasing. -/
def ReportsUpTo (totalSize bound : Nat) (reports : List Progress) : Prop :=
  (∀ p ∈ reports, p.totalSizeBytes = totalSize ∧ p.bytesTransferred ≤ bound) ∧
    NonDecreasing reports

/-- The file with the byte at offset `i` replaced by `b`. -/
def corruptAt (bytes : List Byte) (i : Nat) (b : Byte) : List Byte :=
  bytes.set i b

/-- The file without its last `k` bytes. -/
def truncateBy (bytes : List Byte) (k : Nat) : List Byte :=
  bytes.take (bytes.length - k)

/-- The initial state of the loop of `copyFile` on a source holding `s`. -/
def copyStart (s : List Byte) : CopyState :=
  { src := { isOpen := true, data := s, pos := 0, gcount := 0, eofbit := false,
             failbit := false },
    dst := { isOpen := true, written := [] },
    buffer := [], bytesRead := 0, reports := [], iterations := 0 }

/-- A file system with one regular file. -/
def oneFile (path : String) (bytes : List Byte) : FileSystem :=
  fun p => if p = path then some (Node.file bytes) else none

/-- A file system with two regular files. -/
def twoFiles (path1 : String) (bytes1 : List Byte) (path2 : String) (bytes2 : List Byte) :
    FileSystem :=
  fun p => if p = path1 then some (Node.file bytes1)
    else if p = path2 then some (Node.file bytes2) else none

/-! ## Lemmas on streams -/

/-- A successful read was made on a good stream, delivered the next `n` bytes
and moved the position by `n`. -/
theorem IfStream.read_ok {s : IfStream} {n : Nat} (hn : 0 < n)
    (h : (s.read n).1.failbit = false) :
    s.failbit = false ∧ s.eofbit = false ∧ s.pos + n ≤ s.data.length ∧
      (s.read n).1 = { s with pos := s.pos + n, gcount := n } ∧
      (s.read n).2 = (s.data.drop s.pos).take n := by
  unfold IfStream.read at h ⊢
  by_cases hg : (s.eofbit || s.failbit) = true
  · rw [if_pos hg] at h
    simp at h
  · rw [if_neg hg] at h ⊢
    by_cases hl : ((s.data.drop s.pos).take n).length < n
    · simp only [if_pos hl] at h
      simp at h
    · rw [if_neg hl]
      simp only [Bool.or_eq_true, not_or, Bool.not_eq_true] at hg
      have hlen : ((s.data.drop s.pos).take n).length = n := by
        simp only [List.length_take, List.length_drop] at hl ⊢
        omega
      have hle : s.pos + n ≤ s.data.length := by
        simp only [List.length_take, List.length_drop] at hl
        omega
      rw [hlen]
      exact ⟨hg.2, hg.1, hle, rfl, rfl⟩

/-- A failed read on a good stream met the end of the file: it delivered the
bytes that were left, fewer than `n`. -/
theorem IfStream.read_short {s : IfStream} {n : Nat} (hf : s.failbit = false)
    (he : s.eofbit = false) (hp : s.pos ≤ s.data.length)
    (h : (s.read n).1.failbit = true) :
    s.data.length - s.pos < n ∧
      (s.read n).1.gcount = s.data.length - s.pos ∧
      (s.read n).1.data = s.data ∧
      (s.read n).2 = s.data.drop s.pos := by
  unfold IfStream.read at h ⊢
  have hg : ¬ (s.eofbit || s.failbit) = true := by simp [hf, he]
  rw [if_neg hg] at h ⊢
  by_cases hl : ((s.data.drop s.pos).take n).length < n
  · rw [if_pos hl]
    have hlt : s.data.length - s.pos < n := by
      simp only [List.length_take, List.length_drop] at hl
      omega
    have htake : (s.data.drop s.pos).take n = s.data.drop s.pos := by
      apply List.take_of_length_le
      simp only [List.length_drop]
      omega
    rw [htake]
    exact ⟨hlt, by simp, rfl, rfl⟩
  · simp only [if_neg hl] at h
    rw [hf] at h
    exact absurd h (by decide)

/-- A failed read stored fewer than `n` bytes. -/
theorem IfStream.read_fail_gcount {s : IfStream} {n : Nat} (hn : 0 < n)
    (h : (s.read n).1.failbit = true) : (s.read n).1.gcount < n := by
  unfold IfStream.read at h ⊢
  by_cases hg : (s.eofbit || s.failbit) = true
  · rw [if_pos hg]
    exact hn
  · rw [if_neg hg] at h ⊢
    by_cases hl : ((s.data.drop s.pos).take n).length < n
    · simp only [if_pos hl]
      exact hl
    · simp only [if_neg hl] at h
      simp only [Bool.or_eq_true, not_or, Bool.not_eq_true] at hg
      rw [hg.2] at h
      exact absurd h (by decide)

/-! ## Lemmas on verifyFiles -/

/-- How the loop of `verifyFiles` ends when it starts with a good source
stream: either the body returned `false`, or the condition failed with the two
`gcount()` values different, or the very first read of the source came up short
and the destination was never read (its `gcount()` is still what it was). -/
theorem verifyLoop_exit (n : Nat) : ∀ st : VerifyState,
    st.src.data.length - st.src.pos = n →
    st.src.failbit = false → st.src.eofbit = false →
    st.src.pos ≤ st.src.data.length →
    (verifyLoop st).1 = some false ∨
      ((verifyLoop st).1 = none ∧
        ((verifyLoop st).2.src.gcount ≠ (verifyLoop st).2.dst.gcount ∨
          ((verifyLoop st).2.src.gcount = st.src.data.length - st.src.pos ∧
            st.src.data.length - st.src.pos < BUFFER_SIZE ∧
            (verifyLoop st).2.dst.gcount = st.dst.gcount))) := by
  induction n using Nat.strong_induction_on with
  | _ n ih =>
    intro st hn hf he hp
    rw [verifyLoop]
    simp only []
    by_cases h : (st.src.read BUFFER_SIZE).1.failbit = false
    · rw [dif_pos h]
      obtain ⟨_, _, hle, hs, _⟩ := IfStream.read_ok (by decide) h
      by_cases hd : (st.dst.read BUFFER_SIZE).1.failbit = false
      · rw [if_pos hd]
        obtain ⟨_, _, _, hs2, _⟩ := IfStream.read_ok (by decide) hd
        split
        · exact Or.inl rfl
        · have hpos : (st.src.read BUFFER_SIZE).1.pos = st.src.pos + BUFFER_SIZE := by rw [hs]
          have hdata : (st.src.read BUFFER_SIZE).1.data = st.src.data := by rw [hs]
          have heof : (st.src.read BUFFER_SIZE).1.eofbit = false := by rw [hs]; assumption
          have hg : (st.dst.read BUFFER_SIZE).1.gcount = BUFFER_SIZE := by rw [hs2]
          have hB : BUFFER_SIZE = 4096 := rfl
          have key := ih (st.src.data.length - (st.src.pos + BUFFER_SIZE)) (by omega)
            { src := (st.src.read BUFFER_SIZE).1, dst := (st.dst.read BUFFER_SIZE).1,
              srcBuffer := (st.src.read BUFFER_SIZE).2, dstBuffer := (st.dst.read BUFFER_SIZE).2 }
            (by simp only [hpos, hdata]) h heof (by simp only [hpos, hdata]; exact hle)
          rcases key with h1 | ⟨h1, h2 | ⟨h3, h4, h5⟩⟩
          · exact Or.inl h1
          · exact Or.inr ⟨h1, Or.inl h2⟩
          · refine Or.inr ⟨h1, Or.inl ?_⟩
            dsimp only at h3 h4 h5
            rw [h3, h5, hg]
            omega
      · rw [if_neg hd]
        refine Or.inr ⟨rfl, Or.inl ?_⟩
        have hlt := IfStream.read_fail_gcount (s := st.dst) (n := BUFFER_SIZE) (by decide)
          (by simpa using hd)
        have hg : (st.src.read BUFFER_SIZE).1.gcount = BUFFER_SIZE := by rw [hs]
        simp only [hg]
        omega
    · rw [dif_neg h]
      obtain ⟨h1, h2, _, _⟩ := IfStream.read_short hf he hp (by simpa using h)
      exact Or.inr ⟨rfl, Or.inr ⟨h2, h1, rfl⟩⟩

/-- On an empty source the loop of `verifyFiles` stops at its first test and
never reads the destination. -/
theorem verifyLoop_empty (st : VerifyState) (hdata : st.src.data = [])
    (hf : st.src.failbit = false) (he : st.src.eofbit = false) :
    (verifyLoop st).1 = none ∧ (verifyLoop st).2.src.gcount = 0 ∧
      (verifyLoop st).2.dst = st.dst := by
  rw [verifyLoop]
  simp [IfStream.read, hdata, hf, he, BUFFER_SIZE]

/-- The value of `verifyFiles` on two regular files: `true` exactly when the
source is empty. -/
theorem verifyFiles_eq (fs : FileSystem) (source destination : String)
    (s d : List Byte) (hs : fs source = some (Node.file s))
    (hd : fs destination = some (Node.file d)) :
    verifyFiles fs source destination = decide (s = []) := by
  unfold verifyFiles
  simp only [IfStream.open, hs, hd, Bool.not_true, Bool.or_self, Bool.false_eq_true, if_false]
  by_cases hnil : s = []
  · subst hnil
    obtain ⟨h1, h2, h3⟩ := verifyLoop_empty
      { src := { isOpen := true, data := [], pos := 0, gcount := 0, eofbit := false,
                 failbit := false },
        dst := { isOpen := true, data := d, pos := 0, gcount := 0, eofbit := false,
                 failbit := false },
        srcBuffer := [], dstBuffer := [] } rfl rfl rfl
    rcases hres : verifyLoop
      { src := { isOpen := true, data := [], pos := 0, gcount := 0, eofbit := false,
                 failbit := false },
        dst := { isOpen := true, data := d, pos := 0, gcount := 0, eofbit := false,
                 failbit := false },
        srcBuffer := [], dstBuffer := [] } with ⟨e, st⟩
    rw [hres] at h1 h2 h3
    dsimp only at h1 h2 h3
    subst h1
    simp [h2, h3]
  · have key := verifyLoop_exit _
      { src := { isOpen := true, data := s, pos := 0, gcount := 0, eofbit := false,
                 failbit := false },
        dst := { isOpen := true, data := d, pos := 0, gcount := 0, eofbit := false,
                 failbit := false },
        srcBuffer := [], dstBuffer := [] } rfl rfl rfl (Nat.zero_le _)
    rcases hres : verifyLoop
      { src := { isOpen := true, data := s, pos := 0, gcount := 0, eofbit := false,
                 failbit := false },
        dst := { isOpen := true, data := d, pos := 0, gcount := 0, eofbit := false,
                 failbit := false },
        srcBuffer := [], dstBuffer := [] } with ⟨e, st⟩
    rw [hres] at key
    dsimp only at key
    have hlen : s.length ≠ 0 := fun h => hnil (List.length_eq_zero.mp h)
    rcases key with h1 | ⟨h1, h2 | ⟨h3, _, h5⟩⟩
    · subst h1
      simp [hnil]
    · subst h1
      simp [hnil, h2]
    · subst h1
      have : st.src.gcount ≠ st.dst.gcount := by omega
      simp [hnil, this]

/-- When the loop of `verifyFiles` ends because the read of the source came up
short, the source's `gcount()` is below 4096 and the destination was not read
in that iteration: its `gcount()` is the 4096 of the iteration before, or the
stream is as it was at the start. -/
theorem verifyLoop_short_source (n : Nat) : ∀ st st1 : VerifyState,
    st.src.data.length - st.src.pos = n →
    st.src.failbit = false → st.src.eofbit = false →
    st.src.pos ≤ st.src.data.length →
    verifyLoop st = (none, st1) → st1.src.failbit = true →
    st1.src.gcount < BUFFER_SIZE ∧ (st1.dst.gcount = BUFFER_SIZE ∨ st1.dst = st.dst) := by
  induction n using Nat.strong_induction_on with
  | _ n ih =>
    intro st st1 hn hf he hp hres hfail
    rw [verifyLoop] at hres
    simp only [] at hres
    by_cases h : (st.src.read BUFFER_SIZE).1.failbit = false
    · rw [dif_pos h] at hres
      obtain ⟨_, _, hle, hs, _⟩ := IfStream.read_ok (by decide) h
      by_cases hd : (st.dst.read BUFFER_SIZE).1.failbit = false
      · rw [if_pos hd] at hres
        obtain ⟨_, _, _, hs2, _⟩ := IfStream.read_ok (by decide) hd
        split at hres
        · simp at hres
        · have hpos : (st.src.read BUFFER_SIZE).1.pos = st.src.pos + BUFFER_SIZE := by rw [hs]
          have hdata : (st.src.read BUFFER_SIZE).1.data = st.src.data := by rw [hs]
          have heof : (st.src.read BUFFER_SIZE).1.eofbit = false := by rw [hs]; assumption
          have hg : (st.dst.read BUFFER_SIZE).1.gcount = BUFFER_SIZE := by rw [hs2]
          have hB : BUFFER_SIZE = 4096 := rfl
          obtain ⟨k1, k2⟩ := ih (st.src.data.length - (st.src.pos + BUFFER_SIZE)) (by omega)
            { src := (st.src.read BUFFER_SIZE).1, dst := (st.dst.read BUFFER_SIZE).1,
              srcBuffer := (st.src.read BUFFER_SIZE).2, dstBuffer := (st.dst.read BUFFER_SIZE).2 }
            st1 (by simp only [hpos, hdata]) h heof (by simp only [hpos, hdata]; exact hle)
            hres hfail
          refine ⟨k1, Or.inl ?_⟩
          rcases k2 with k2 | k2
          · exact k2
          · rw [k2]
            exact hg
      · rw [if_neg hd] at hres
        simp only [Prod.mk.injEq, true_and] at hres
        rw [← hres] at hfail
        simp only at hfail
        rw [h] at hfail
        exact absurd hfail (by decide)
    · rw [dif_neg h] at hres
      simp only [Prod.mk.injEq, true_and] at hres
      have hlt := IfStream.read_fail_gcount (s := st.src) (n := BUFFER_SIZE) (by decide)
        (by simpa using h)
      rw [← hres]
      exact ⟨hlt, Or.inr rfl⟩

/-! ## Lemmas on copyFile -/

/-- The loop of `copyFile` and the write that follows it deliver every byte
from the get position to the end of the source, once and in order. -/
theorem copyLoop_written (totalSize : Nat) (n : Nat) : ∀ st : CopyState,
    st.src.data.length - st.src.pos = n →
    st.src.failbit = false → st.src.eofbit = false →
    st.src.pos ≤ st.src.data.length →
    (copyLoop totalSize st).dst.written ++
        (copyLoop totalSize st).buffer.take (copyLoop totalSize st).src.gcount =
      st.dst.written ++ st.src.data.drop st.src.pos := by
  induction n using Nat.strong_induction_on with
  | _ n ih =>
    intro st hn hf he hp
    rw [copyLoop]
    simp only []
    by_cases h : (st.src.read BUFFER_SIZE).1.failbit = false
    · rw [dif_pos h]
      obtain ⟨_, _, hle, hs, hb⟩ := IfStream.read_ok (by decide) h
      have hpos : (st.src.read BUFFER_SIZE).1.pos = st.src.pos + BUFFER_SIZE := by rw [hs]
      have hdata : (st.src.read BUFFER_SIZE).1.data = st.src.data := by rw [hs]
      have heof : (st.src.read BUFFER_SIZE).1.eofbit = false := by rw [hs]; assumption
      have hg : (st.src.read BUFFER_SIZE).1.gcount = BUFFER_SIZE := by rw [hs]
      have hB : BUFFER_SIZE = 4096 := rfl
      have key := ih (st.src.data.length - (st.src.pos + BUFFER_SIZE)) (by omega)
        { src := (st.src.read BUFFER_SIZE).1,
          dst := st.dst.write (st.src.read BUFFER_SIZE).2 (st.src.read BUFFER_SIZE).1.gcount,
          buffer := (st.src.read BUFFER_SIZE).2,
          bytesRead := (st.bytesRead + (st.src.read BUFFER_SIZE).1.gcount) % SIZE_MOD,
          reports := st.reports ++
            [⟨(st.bytesRead + (st.src.read BUFFER_SIZE).1.gcount) % SIZE_MOD, totalSize⟩],
          iterations := st.iterations + 1 }
        (by simp only [hpos, hdata]) h heof (by simp only [hpos, hdata]; exact hle)
      rw [key]
      simp only [OfStream.write, hpos, hdata, hg, hb, List.take_take, min_self,
        List.append_assoc]
      congr 1
      rw [← List.drop_drop, List.take_append_drop]
    · rw [dif_neg h]
      obtain ⟨_, h2, _, h4⟩ := IfStream.read_short hf he hp (by simpa using h)
      simp only [h2, h4]
      congr 1
      apply List.take_of_length_le
      simp only [List.length_drop]
      exact Nat.le_refl _

/-- The loop body of `copyFile` runs once per full chunk of the source. -/
theorem copyLoop_iterations (totalSize : Nat) (n : Nat) : ∀ st : CopyState,
    st.src.data.length - st.src.pos = n →
    st.src.failbit = false → st.src.eofbit = false →
    st.src.pos ≤ st.src.data.length →
    (copyLoop totalSize st).iterations =
      st.iterations + (st.src.data.length - st.src.pos) / BUFFER_SIZE := by
  induction n using Nat.strong_induction_on with
  | _ n ih =>
    intro st hn hf he hp
    rw [copyLoop]
    simp only []
    have hB : BUFFER_SIZE = 4096 := rfl
    by_cases h : (st.src.read BUFFER_SIZE).1.failbit = false
    · rw [dif_pos h]
      obtain ⟨_, _, hle, hs, _⟩ := IfStream.read_ok (by decide) h
      have hpos : (st.src.read BUFFER_SIZE).1.pos = st.src.pos + BUFFER_SIZE := by rw [hs]
      have hdata : (st.src.read BUFFER_SIZE).1.data = st.src.data := by rw [hs]
      have heof : (st.src.read BUFFER_SIZE).1.eofbit = false := by rw [hs]; assumption
      have key := ih (st.src.data.length - (st.src.pos + BUFFER_SIZE)) (by omega)
        { src := (st.src.read BUFFER_SIZE).1,
          dst := st.dst.write (st.src.read BUFFER_SIZE).2 (st.src.read BUFFER_SIZE).1.gcount,
          buffer := (st.src.read BUFFER_SIZE).2,
          bytesRead := (st.bytesRead + (st.src.read BUFFER_SIZE).1.gcount) % SIZE_MOD,
          reports := st.reports ++
            [⟨(st.bytesRead + (st.src.read BUFFER_SIZE).1.gcount) % SIZE_MOD, totalSize⟩],
          iterations := st.iterations + 1 }
        (by simp only [hpos, hdata]) h heof (by simp only [hpos, hdata]; exact hle)
      rw [key]
      simp only [hpos, hdata]
      rw [hB] at hle ⊢
      omega
    · rw [dif_neg h]
      obtain ⟨h1, _, _, _⟩ := IfStream.read_short hf he hp (by simpa using h)
      simp only []
      rw [hB] at h1 ⊢
      omega

/-- One more report, of at least as many bytes as the bound so far. -/
theorem ReportsUpTo.snoc {totalSize b c : Nat} {reports : List Progress}
    (h : ReportsUpTo totalSize b reports) (hbc : b ≤ c) :
    ReportsUpTo totalSize c (reports ++ [⟨c, totalSize⟩]) := by
  obtain ⟨h1, h2⟩ := h
  refine ⟨?_, ?_⟩
  · intro p hp
    rcases List.mem_append.mp hp with hp | hp
    · exact ⟨(h1 p hp).1, Nat.le_trans (h1 p hp).2 hbc⟩
    · rw [List.mem_singleton] at hp
      subst hp
      exact ⟨rfl, Nat.le_refl _⟩
  · unfold NonDecreasing at h2 ⊢
    rw [List.pairwise_append]
    refine ⟨h2, List.pairwise_singleton _ _, ?_⟩
    intro p hp q hq
    rw [List.mem_singleton] at hq
    subst hq
    exact Nat.le_trans (h1 p hp).2 hbc

/-- The counter `bytesRead` follows the get position, and the reports made in
the loop of `copyFile` are non-decreasing and bounded by it. -/
theorem copyLoop_reports (totalSize : Nat) (n : Nat) : ∀ st : CopyState,
    st.src.data.length - st.src.pos = n →
    st.src.failbit = false → st.src.eofbit = false →
    st.src.pos ≤ st.src.data.length →
    st.src.data.length < SIZE_MOD →
    st.bytesRead = st.src.pos →
    ReportsUpTo totalSize st.bytesRead st.reports →
    (copyLoop totalSize st).bytesRead + (copyLoop totalSize st).src.gcount =
        st.src.data.length ∧
      ReportsUpTo totalSize (copyLoop totalSize st).bytesRead
        (copyLoop totalSize st).reports := by
  induction n using Nat.strong_induction_on with
  | _ n ih =>
    intro st hn hf he hp hM hb hR
    rw [copyLoop]
    simp only []
    have hB : BUFFER_SIZE = 4096 := rfl
    by_cases h : (st.src.read BUFFER_SIZE).1.failbit = false
    · rw [dif_pos h]
      obtain ⟨_, _, hle, hs, _⟩ := IfStream.read_ok (by decide) h
      have hpos : (st.src.read BUFFER_SIZE).1.pos = st.src.pos + BUFFER_SIZE := by rw [hs]
      have hdata : (st.src.read BUFFER_SIZE).1.data = st.src.data := by rw [hs]
      have heof : (st.src.read BUFFER_SIZE).1.eofbit = false := by rw [hs]; assumption
      have hg : (st.src.read BUFFER_SIZE).1.gcount = BUFFER_SIZE := by rw [hs]
      have hmod : (st.bytesRead + (st.src.read BUFFER_SIZE).1.gcount) % SIZE_MOD =
          st.src.pos + BUFFER_SIZE := by
        rw [hg, hb]
        exact Nat.mod_eq_of_lt (by omega)
      have key := ih (st.src.data.length - (st.src.pos + BUFFER_SIZE)) (by omega)
        { src := (st.src.read BUFFER_SIZE).1,
          dst := st.dst.write (st.src.read BUFFER_SIZE).2 (st.src.read BUFFER_SIZE).1.gcount,
          buffer := (st.src.read BUFFER_SIZE).2,
          bytesRead := (st.bytesRead + (st.src.read BUFFER_SIZE).1.gcount) % SIZE_MOD,
          reports := st.reports ++
            [⟨(st.bytesRead + (st.src.read BUFFER_SIZE).1.gcount) % SIZE_MOD, totalSize⟩],
          iterations := st.iterations + 1 }
        (by simp only [hpos, hdata]) h heof (by simp only [hpos, hdata]; exact hle)
        (by simp only [hdata]; exact hM)
        (by simp only [hpos]; exact hmod)
        (by
          simp only [hmod]
          exact ReportsUpTo.snoc hR (by omega))
      simp only [hdata] at key
      exact key
    · rw [dif_neg h]
      obtain ⟨_, h2, _, _⟩ := IfStream.read_short hf he hp (by simpa using h)
      simp only []
      refine ⟨?_, hR⟩
      rw [h2, hb]
      omega

/-- A position converted to `size_t`. -/
theorem toSizeT_natCast (n : Nat) : toSizeT (n : Int) = n % SIZE_MOD := by
  unfold toSizeT
  rw [← Int.natCast_mod, Int.toNat_natCast]

/-- Opening the destination for writing when it is not a directory. -/
theorem OfStream.open_eq (fs : FileSystem) (path : String) (hd : fs path ≠ some Node.dir) :
    OfStream.open fs path =
      (fun p => if p = path then some (Node.file []) else fs p,
        { isOpen := true, written := [] }) := by
  unfold OfStream.open
  split
  · rename_i h
    exact absurd h hd
  · rfl

/-- Opening a regular file for reading. -/
theorem IfStream.open_file (fs : FileSystem) (path : String) (bytes : List Byte)
    (h : fs path = some (Node.file bytes)) :
    IfStream.open fs path =
      { isOpen := true, data := bytes, pos := 0, gcount := 0, eofbit := false,
        failbit := false } := by
  unfold IfStream.open
  rw [h]

/-- The function `copyFile` when both streams open, in terms of its loop: `s` is
what the source holds once the destination has been truncated. -/
theorem copyFile_eq (fs : FileSystem) (source destination : String) (s0 s : List Byte)
    (h0 : fs source = some (Node.file s0)) (hd : fs destination ≠ some Node.dir)
    (h1 : (if source = destination then some (Node.file []) else fs source) =
      some (Node.file s)) :
    copyFile fs source destination =
      { fs := fun p => if p = destination then
            some (Node.file ((copyLoop (s.length % SIZE_MOD) (copyStart s)).dst.written ++
              (copyLoop (s.length % SIZE_MOD) (copyStart s)).buffer.take
                (copyLoop (s.length % SIZE_MOD) (copyStart s)).src.gcount))
          else fs p,
        reports := (copyLoop (s.length % SIZE_MOD) (copyStart s)).reports ++
          [⟨((copyLoop (s.length % SIZE_MOD) (copyStart s)).bytesRead +
              (copyLoop (s.length % SIZE_MOD) (copyStart s)).src.gcount) % SIZE_MOD,
            s.length % SIZE_MOD⟩],
        iterations := (copyLoop (s.length % SIZE_MOD) (copyStart s)).iterations,
        completed := true } := by
  have e0 := IfStream.open_file fs source s0 h0
  have e1 := IfStream.open_file
    (fun p => if p = destination then some (Node.file []) else fs p) source s h1
  unfold copyFile
  rw [OfStream.open_eq fs destination hd]
  simp only []
  rw [e0, e1]
  simp only [Bool.not_true, Bool.or_self, Bool.false_eq_true, if_false,
    IfStream.seekgEnd, IfStream.seekgBeg, IfStream.tellg, toSizeT_natCast,
    OfStream.close, OfStream.write, copyStart]
  congr 1
  funext p
  by_cases hp : p = destination
  · simp [OfStream.close, hp]
  · simp [OfStream.close, hp]

/-- What the source holds once the destination, another path, has been opened. -/
theorem source_after_open (fs : FileSystem) (source destination : String) (s : List Byte)
    (hne : source ≠ destination) (hs : fs source = some (Node.file s)) :
    (if source = destination then some (Node.file []) else fs source) =
      some (Node.file s) := by
  rw [if_neg hne, hs]

/-- The file system `copyFile` leaves when source and destination are two files
and both streams open: the destination holds the bytes of the source. -/
theorem copyFile_fs (fs : FileSystem) (source destination : String) (s : List Byte)
    (hne : source ≠ destination) (hs : fs source = some (Node.file s))
    (hd : fs destination ≠ some Node.dir) :
    (copyFile fs source destination).fs =
      fun p => if p = destination then some (Node.file s) else fs p := by
  rw [copyFile_eq fs source destination s s hs hd (source_after_open fs source destination s hne hs)]
  have hw := copyLoop_written (s.length % SIZE_MOD) _ (copyStart s) rfl rfl rfl (Nat.zero_le _)
  simp only [copyStart, List.nil_append, List.drop_zero] at hw
  simp only [copyStart]
  rw [hw]

/-- The reports `copyFile` makes on a source of `s.length` bytes, a size that
`size_t` holds: non-decreasing, each within the total, the last one complete. -/
theorem copyFile_reports (fs : FileSystem) (source destination : String) (s : List Byte)
    (hne : source ≠ destination) (hs : fs source = some (Node.file s))
    (hd : fs destination ≠ some Node.dir) (hsize : s.length < SIZE_MOD) :
    ∃ earlier : List Progress,
      (copyFile fs source destination).reports = earlier ++ [⟨s.length, s.length⟩] ∧
      ReportsUpTo s.length s.length (earlier ++ [⟨s.length, s.length⟩]) := by
  rw [copyFile_eq fs source destination s s hs hd (source_after_open fs source destination s hne hs)]
  have hmod : s.length % SIZE_MOD = s.length := Nat.mod_eq_of_lt hsize
  obtain ⟨h1, h2⟩ := copyLoop_reports s.length _ (copyStart s) rfl rfl rfl
    (Nat.zero_le _) hsize rfl ⟨fun p hp => absurd hp (List.not_mem_nil p), List.Pairwise.nil⟩
  have hdata : (copyStart s).src.data.length = s.length := rfl
  rw [hdata] at h1
  refine ⟨(copyLoop s.length (copyStart s)).reports, ?_, ?_⟩
  · simp only [hmod, h1]
  · exact ReportsUpTo.snoc h2 (by omega)

/-- On an empty source the loop of `copyFile` does nothing. -/
theorem copyLoop_empty (totalSize : Nat) :
    (copyLoop totalSize (copyStart [])).iterations = 0 ∧
      (copyLoop totalSize (copyStart [])).reports = [] ∧
      (copyLoop totalSize (copyStart [])).bytesRead = 0 ∧
      (copyLoop totalSize (copyStart [])).src.gcount = 0 ∧
      (copyLoop totalSize (copyStart [])).dst.written = [] := by
  rw [copyLoop]
  simp [IfStream.read, copyStart, BUFFER_SIZE]

/-- An argument list that is read to its end sets `skip` exactly when it was
set before or `/n` is among the arguments. -/
theorem parseArgs_skip : ∀ (args : List String) (o o1 : Options),
    parseArgs args o = some o1 → (o1.skip = true ↔ (o.skip = true ∨ "/n" ∈ args)) := by
  intro args
  induction args with
  | nil =>
    intro o o1 h
    simp only [parseArgs, Option.some.injEq] at h
    subst h
    simp
  | cons arg rest ih =>
    intro o o1 h
    unfold parseArgs at h
    by_cases hv : arg = "/v"
    · rw [if_pos hv] at h
      have := ih _ _ h
      simp only at this
      rw [this]
      simp [hv]
    · rw [if_neg hv] at h
      by_cases hy : arg = "/y"
      · rw [if_pos hy] at h
        have := ih _ _ h
        simp only at this
        rw [this]
        simp [hy]
      · rw [if_neg hy] at h
        by_cases hn : arg = "/n"
        · rw [if_pos hn] at h
          have := ih _ _ h
          simp only at this
          rw [this]
          simp [hn]
        · rw [if_neg hn] at h
          by_cases hq : arg = "/?"
          · rw [if_pos hq] at h
            exact absurd h (by simp)
          · rw [if_neg hq] at h
            have hne : ¬ "/n" = arg := fun e => hn e.symm
            by_cases hsrc : o.source = ""
            · rw [if_pos hsrc] at h
              have := ih _ _ h
              simp only at this
              rw [this]
              simp [hne]
            · rw [if_neg hsrc] at h
              have := ih _ _ h
              simp only at this
              rw [this]
              simp [hne]

/-- The end of `main` leaves the file system alone and does not call `copyFile`
when the source does not open. -/
theorem mainCopy_source_missing (fs : FileSystem) (o : Options) (destination : String)
    (pre : List Event) (h : fopenRead fs o.source = false) :
    mainCopy fs o destination pre =
      { exitCode := 1, fs := fs, events := pre ++ [Event.sourceMissing] } := by
  unfold mainCopy
  rw [h]
  simp

/-- With the same path as source and destination, opening the destination
empties the file before anything is read: it is left empty. -/
theorem copyFile_same_path (fs : FileSystem) (path : String) (s : List Byte)
    (hs : fs path = some (Node.file s)) :
    (copyFile fs path path).fs path = some (Node.file []) ∧
      (copyFile fs path path).reports = [⟨0, 0⟩] := by
  have hd : fs path ≠ some Node.dir := by
    rw [hs]
    exact fun h => Node.noConfusion (Option.some.inj h)
  obtain ⟨e1, e2, e3, e4, e5⟩ := copyLoop_empty 0
  rw [copyFile_eq fs path path s [] hs hd (if_pos rfl)]
  simp only [List.length_nil, Nat.zero_mod]
  simp only [e2, e3, e4, e5, List.take_zero, List.append_nil, List.nil_append,
    Nat.add_zero, Nat.zero_mod]
  simp

/-- The value of `verifyFiles` after `copyFile` between two files, the pair left
untouched: `true` exactly when the source is empty. -/
theorem verifyFiles_after_copyFile (fs : FileSystem) (source destination : String)
    (s : List Byte) (hne : source ≠ destination) (hs : fs source = some (Node.file s))
    (hd : fs destination ≠ some Node.dir) :
    verifyFiles (copyFile fs source destination).fs source destination =
      decide (s = []) := by
  rw [copyFile_fs fs source destination s hne hs hd]
  apply verifyFiles_eq _ source destination s s
  · simp [hne, hs]
  · simp

/-! ## The copy engine -/

/-- C1: when source and destination are two files, the source is a regular file
holding the bytes `s` (of any length, multiples of 4096 included) and the
destination can be opened for writing, whatever it held before, `copyFile` runs
to completion and leaves the destination holding exactly `s`; its loop body ran
once per full chunk of 4096 bytes, and every other path keeps what it had. -/
theorem copyFile_destination_holds_source (fs : FileSystem) (source destination : String)
    (s : List Byte) (hne : source ≠ destination) (hs : fs source = some (Node.file s))
    (hd : fs destination ≠ some Node.dir) :
    (copyFile fs source destination).completed = true ∧
      (copyFile fs source destination).fs destination = some (Node.file s) ∧
      (copyFile fs source destination).iterations = s.length / BUFFER_SIZE ∧
      ∀ p, p ≠ destination → (copyFile fs source destination).fs p = fs p := by
  refine ⟨?_, ?_, ?_, ?_⟩
  · rw [copyFile_eq fs source destination s s hs hd
      (source_after_open fs source destination s hne hs)]
  · rw [copyFile_fs fs source destination s hne hs hd]
    simp
  · rw [copyFile_eq fs source destination s s hs hd
      (source_after_open fs source destination s hne hs)]
    have hi := copyLoop_iterations (s.length % SIZE_MOD) _ (copyStart s) rfl rfl rfl
      (Nat.zero_le _)
    simp only [copyStart, Nat.zero_add, Nat.sub_zero] at hi
    simp only [copyStart]
    exact hi
  · intro p hp
    rw [copyFile_fs fs source destination s hne hs hd]
    simp [hp]

/-- A source of three bytes copied over a destination of five. -/
theorem copyFile_destination_holds_source_witness :
    "a" ≠ "b" ∧
      twoFiles "a" [1, 2, 3] "b" [9, 9, 9, 9, 9] "a" = some (Node.file [1, 2, 3]) ∧
      twoFiles "a" [1, 2, 3] "b" [9, 9, 9, 9, 9] "b" ≠ some Node.dir ∧
      (copyFile (twoFiles "a" [1, 2, 3] "b" [9, 9, 9, 9, 9]) "a" "b").fs "b" =
        some (Node.file [1, 2, 3]) :=
  ⟨by decide, rfl, by decide,
    (copyFile_destination_holds_source (twoFiles "a" [1, 2, 3] "b" [9, 9, 9, 9, 9]) "a" "b"
      [1, 2, 3] (by decide) rfl (by decide)).2.1⟩

/-- C6: copying a zero-length source (to a destination that can be opened for
writing) runs the chunk loop zero times, leaves a zero-length destination,
calls `showProgress` exactly once, with 0 bytes of 0, and `verifyFiles` on the
resulting pair returns `true`. -/
theorem copyFile_empty_source (fs : FileSystem) (source destination : String)
    (hs : fs source = some (Node.file [])) (hd : fs destination ≠ some Node.dir) :
    (copyFile fs source destination).iterations = 0 ∧
      (copyFile fs source destination).fs destination = some (Node.file []) ∧
      (copyFile fs source destination).reports = [⟨0, 0⟩] ∧
      verifyFiles (copyFile fs source destination).fs source destination = true := by
  have h1 : (if source = destination then some (Node.file []) else fs source) =
      some (Node.file []) := by
    split
    · rfl
    · exact hs
  obtain ⟨e1, e2, e3, e4, e5⟩ := copyLoop_empty 0
  rw [copyFile_eq fs source destination [] [] hs hd h1]
  simp only [List.length_nil, Nat.zero_mod]
  simp only [e1, e2, e3, e4, e5, List.take_zero, List.append_nil, List.nil_append,
    Nat.add_zero, Nat.zero_mod]
  refine ⟨trivial, by simp, trivial, ?_⟩
  rw [verifyFiles_eq _ source destination [] []]
  · simp
  · by_cases h : source = destination
    · simp [h]
    · simp [h, hs]
  · simp

/-- An empty source copied over a destination of two bytes. -/
theorem copyFile_empty_source_witness :
    twoFiles "a" [] "b" [4, 2] "a" = some (Node.file []) ∧
      twoFiles "a" [] "b" [4, 2] "b" ≠ some Node.dir ∧
      (copyFile (twoFiles "a" [] "b" [4, 2]) "a" "b").reports = [⟨0, 0⟩] :=
  ⟨rfl, by decide,
    (copyFile_empty_source (twoFiles "a" [] "b" [4, 2]) "a" "b" rfl (by decide)).2.2.1⟩

/-- C7: on a source of `n = s.length` bytes (a size `size_t` holds, source and
destination two files, both streams open) the sequence of
`(bytesTransferred, totalSizeBytes)` passed to `showProgress` is non-empty,
names `n` as the total in every report, is non-decreasing in
`bytesTransferred`, has `0 ≤ bytesTransferred ≤ totalSizeBytes` in every
report, and ends with `bytesTransferred = totalSizeBytes = n`. -/
theorem copyFile_progress_reports (fs : FileSystem) (source destination : String)
    (s : List Byte) (hne : source ≠ destination) (hs : fs source = some (Node.file s))
    (hd : fs destination ≠ some Node.dir) (hsize : s.length < SIZE_MOD) :
    (copyFile fs source destination).reports ≠ [] ∧
      (∀ p ∈ (copyFile fs source destination).reports, p.totalSizeBytes = s.length) ∧
      NonDecreasing (copyFile fs source destination).reports ∧
      (∀ p ∈ (copyFile fs source destination).reports,
        0 ≤ p.bytesTransferred ∧ p.bytesTransferred ≤ p.totalSizeBytes) ∧
      (copyFile fs source destination).reports.getLast? = some ⟨s.length, s.length⟩ := by
  obtain ⟨earlier, he, hall, hmono⟩ := copyFile_reports fs source destination s hne hs hd hsize
  rw [he]
  refine ⟨by simp, fun p hp => (hall p hp).1, hmono, fun p hp => ⟨Nat.zero_le _, ?_⟩, by simp⟩
  rw [(hall p hp).1]
  exact (hall p hp).2

/-- The reports for a source of three bytes. -/
theorem copyFile_progress_reports_witness :
    "a" ≠ "b" ∧
      twoFiles "a" [1, 2, 3] "b" [9] "a" = some (Node.file [1, 2, 3]) ∧
      twoFiles "a" [1, 2, 3] "b" [9] "b" ≠ some Node.dir ∧
      ([1, 2, 3] : List Byte).length < SIZE_MOD ∧
      (copyFile (twoFiles "a" [1, 2, 3] "b" [9]) "a" "b").reports.getLast? =
        some ⟨([1, 2, 3] : List Byte).length, ([1, 2, 3] : List Byte).length⟩ :=
  ⟨by decide, rfl, by decide, by decide,
    (copyFile_progress_reports (twoFiles "a" [1, 2, 3] "b" [9]) "a" "b" [1, 2, 3]
      (by decide) rfl (by decide) (by decide)).2.2.2.2⟩

/-! ## The verifier -/

/-- C2, at a source of one byte: `copyFile` completes and the destination holds
the byte of the source, yet `verifyFiles` on the untouched pair returns
`false`. -/
theorem verifyFiles_after_copyFile_one_byte :
    (copyFile (oneFile "a" [7]) "a" "b").completed = true ∧
      (copyFile (oneFile "a" [7]) "a" "b").fs "a" = some (Node.file [7]) ∧
      (copyFile (oneFile "a" [7]) "a" "b").fs "b" = some (Node.file [7]) ∧
      verifyFiles (copyFile (oneFile "a" [7]) "a" "b").fs "a" "b" = false := by
  have hfs := copyFile_fs (oneFile "a" [7]) "a" "b" [7] (by decide) rfl (by decide)
  have ha : (copyFile (oneFile "a" [7]) "a" "b").fs "a" = some (Node.file [7]) := by
    rw [hfs]
    rfl
  have hb : (copyFile (oneFile "a" [7]) "a" "b").fs "b" = some (Node.file [7]) := by
    rw [hfs]
    rfl
  refine ⟨?_, ha, hb, ?_⟩
  · rw [copyFile_eq (oneFile "a" [7]) "a" "b" [7] [7] rfl (by decide) rfl]
  · rw [verifyFiles_eq _ "a" "b" [7] [7] ha hb]
    rfl

/-- C3, at an empty source and a destination of one byte: the two files differ
in length, and `verifyFiles` returns `true`. -/
theorem verifyFiles_empty_source_longer_destination :
    ([] : List Byte).length ≠ ([1] : List Byte).length ∧
      verifyFiles (twoFiles "a" [] "b" [1]) "a" "b" = true := by
  refine ⟨by decide, ?_⟩
  rw [verifyFiles_eq (twoFiles "a" [] "b" [1]) "a" "b" [] [1] rfl rfl]
  rfl

/-- C4: for a file `F` and an offset `i < |F|` (so `F` is not empty), if the
destination holds `F` with the byte at offset `i` replaced by a different
value, `verifyFiles` returns `false`. -/
theorem verifyFiles_corrupted_byte (fs : FileSystem) (source destination : String)
    (F : List Byte) (i : Nat) (b : Byte) (hi : i < F.length) (_hb : b ≠ F[i])
    (hs : fs source = some (Node.file F))
    (hd : fs destination = some (Node.file (corruptAt F i b))) :
    verifyFiles fs source destination = false := by
  rw [verifyFiles_eq fs source destination F (corruptAt F i b) hs hd]
  have hne : F ≠ [] := by
    intro h
    rw [h] at hi
    exact Nat.not_lt_zero _ hi
  simp [hne]

/-- The second of three bytes changed from 2 to 5. -/
theorem verifyFiles_corrupted_byte_witness :
    1 < ([1, 2, 3] : List Byte).length ∧ (5 : Byte) ≠ ([1, 2, 3] : List Byte)[1] ∧
      corruptAt [1, 2, 3] 1 5 = [1, 5, 3] ∧
      verifyFiles (twoFiles "a" [1, 2, 3] "b" [1, 5, 3]) "a" "b" = false :=
  ⟨by decide, by decide, rfl,
    verifyFiles_corrupted_byte (twoFiles "a" [1, 2, 3] "b" [1, 5, 3]) "a" "b" [1, 2, 3] 1 5
      (by decide) (by decide) rfl rfl⟩

/-- C5: for a non-empty file `F` and `1 ≤ k ≤ |F|`, if the destination holds
`F` without its last `k` bytes, `verifyFiles` returns `false`. -/
theorem verifyFiles_truncated (fs : FileSystem) (source destination : String)
    (F : List Byte) (k : Nat) (hk : 1 ≤ k) (hkF : k ≤ F.length)
    (hs : fs source = some (Node.file F))
    (hd : fs destination = some (Node.file (truncateBy F k))) :
    verifyFiles fs source destination = false := by
  rw [verifyFiles_eq fs source destination F (truncateBy F k) hs hd]
  have hne : F ≠ [] := by
    intro h
    rw [h] at hkF
    exact absurd (Nat.le_trans hk hkF) (by decide)
  simp [hne]

/-- Three bytes with the last two removed. -/
theorem verifyFiles_truncated_witness :
    1 ≤ 2 ∧ 2 ≤ ([1, 2, 3] : List Byte).length ∧ truncateBy [1, 2, 3] 2 = [1] ∧
      verifyFiles (twoFiles "a" [1, 2, 3] "b" [1]) "a" "b" = false :=
  ⟨by decide, by decide, rfl,
    verifyFiles_truncated (twoFiles "a" [1, 2, 3] "b" [1]) "a" "b" [1, 2, 3] 2
      (by decide) (by decide) rfl rfl⟩

/-- C10: on two files that open, `verifyFiles` returns `true` if and only if the
source is empty, whatever the destination holds.  The reason: when its loop
ends on a short read of the source, the destination is not read in that
iteration, and the final check compares the source's `gcount()`, below 4096,
with the destination's `gcount()` of the iteration before, 4096, or with that
of the unread stream, 0. -/
theorem verifyFiles_true_iff_source_empty (fs : FileSystem) (source destination : String)
    (s d : List Byte) (hs : fs source = some (Node.file s))
    (hd : fs destination = some (Node.file d)) :
    (verifyFiles fs source destination = true ↔ s = []) ∧
      ∀ st : VerifyState,
        verifyLoop { src := IfStream.open fs source, dst := IfStream.open fs destination,
                     srcBuffer := [], dstBuffer := [] } = (none, st) →
        st.src.failbit = true →
        st.src.gcount < BUFFER_SIZE ∧
          (st.dst.gcount = BUFFER_SIZE ∨
            (st.dst = IfStream.open fs destination ∧ st.dst.gcount = 0)) := by
  refine ⟨?_, ?_⟩
  · rw [verifyFiles_eq fs source destination s d hs hd]
    simp
  · intro st hres hfail
    rw [IfStream.open_file fs source s hs, IfStream.open_file fs destination d hd] at hres
    obtain ⟨k1, k2⟩ := verifyLoop_short_source _ _ st rfl rfl rfl (Nat.zero_le _) hres hfail
    refine ⟨k1, ?_⟩
    rcases k2 with k2 | k2
    · exact Or.inl k2
    · right
      rw [IfStream.open_file fs destination d hd, k2]
      exact ⟨rfl, rfl⟩

/-- Two equal files of two bytes: the source is not empty. -/
theorem verifyFiles_true_iff_source_empty_witness :
    twoFiles "a" [1, 2] "b" [1, 2] "a" = some (Node.file [1, 2]) ∧
      twoFiles "a" [1, 2] "b" [1, 2] "b" = some (Node.file [1, 2]) ∧
      ¬ verifyFiles (twoFiles "a" [1, 2] "b" [1, 2]) "a" "b" = true :=
  ⟨rfl, rfl, fun h =>
    absurd ((verifyFiles_true_iff_source_empty (twoFiles "a" [1, 2] "b" [1, 2]) "a" "b"
      [1, 2] [1, 2] rfl rfl).1.mp h) (by decide)⟩

/-! ## main -/

/-- C8: when the arguments are read to their end, name a source and include
`/n`, and the destination `main` works with exists, then (whatever the other
flags, and whether or not the source exists) `main` returns 0, leaves the file
system as it was and does not call `copyFile`; it reports the skip. -/
theorem main_skip_existing_destination (env : Env) (fs : FileSystem) (argv : List String)
    (o : Options) (hparse : parseArgs (argv.drop 1) Options.initial = some o)
    (hsource : o.source ≠ "") (hskip : "/n" ∈ argv.drop 1)
    (hexists : fileExists fs (resolveDestination env fs o) = true) :
    (main env fs argv).exitCode = 0 ∧ (main env fs argv).fs = fs ∧
      (∀ e ∈ (main env fs argv).events, e.isCopy = false) ∧
      Event.skippingCopy ∈ (main env fs argv).events := by
  have hsk : o.skip = true := (parseArgs_skip _ _ _ hparse).mpr (Or.inr hskip)
  unfold main
  rw [hparse]
  simp only [if_neg hsource, hexists, if_true, hsk]
  by_cases hv : o.verify = true
  · simp only [hv, if_true]
    refine ⟨trivial, trivial, ?_, by simp⟩
    intro e he
    unfold verifyReport at he
    split at he <;> simp at he <;> rcases he with he | he <;> subst he <;> rfl
  · have hv2 : o.verify = false := by simpa using hv
    simp only [hv2, Bool.false_eq_true, if_false]
    refine ⟨trivial, trivial, ?_, by simp⟩
    intro e he
    simp at he
    subst he
    rfl

/-- The invocation `bcopy a b /n /v /y` with both files present. -/
theorem main_skip_existing_destination_witness :
    parseArgs (["bcopy", "a", "b", "/n", "/v", "/y"].drop 1) Options.initial =
        some { verify := true, overwrite := true, skip := true, source := "a",
               destination := "b" } ∧
      (main ⟨"C:", id, String.append, 'y'⟩ (twoFiles "a" [1] "b" [2])
        ["bcopy", "a", "b", "/n", "/v", "/y"]).fs = twoFiles "a" [1] "b" [2] :=
  ⟨by decide,
    (main_skip_existing_destination ⟨"C:", id, String.append, 'y'⟩ (twoFiles "a" [1] "b" [2])
      ["bcopy", "a", "b", "/n", "/v", "/y"]
      { verify := true, overwrite := true, skip := true, source := "a", destination := "b" }
      (by decide) (by decide) (by decide) (by decide)).2.1⟩

/-- C9: when the source named by the arguments does not exist, `main` leaves
the file system as it was (the destination is neither created nor truncated
nor written) and does not call `copyFile`, for every combination of flags and
every answer to the overwrite prompt. -/
theorem main_missing_source (env : Env) (fs : FileSystem) (argv : List String)
    (o : Options) (hparse : parseArgs (argv.drop 1) Options.initial = some o)
    (hmissing : fs o.source = none) :
    (main env fs argv).fs = fs ∧ ∀ e ∈ (main env fs argv).events, e.isCopy = false := by
  have hf : fopenRead fs o.source = false := by
    unfold fopenRead
    rw [hmissing]
  have hc : ∀ pre : List Event, (∀ e ∈ pre, e.isCopy = false) →
      (mainCopy fs o (resolveDestination env fs o) pre).fs = fs ∧
        ∀ e ∈ (mainCopy fs o (resolveDestination env fs o) pre).events, e.isCopy = false := by
    intro pre hpre
    rw [mainCopy_source_missing fs o _ pre hf]
    refine ⟨rfl, ?_⟩
    intro e he
    rcases List.mem_append.mp he with he | he
    · exact hpre e he
    · rw [List.mem_singleton] at he
      subst he
      rfl
  unfold main
  rw [hparse]
  simp only []
  split
  · refine ⟨rfl, ?_⟩
    intro e he
    simp at he
    subst he
    rfl
  · split
    · split
      · split
        · refine ⟨rfl, ?_⟩
          intro e he
          unfold verifyReport at he
          split at he <;> simp at he <;> rcases he with he | he <;> subst he <;> rfl
        · refine ⟨rfl, ?_⟩
          intro e he
          simp at he
          subst he
          rfl
      · split
        · split
          · refine ⟨rfl, ?_⟩
            intro e he
            simp at he
            rcases he with he | he <;> subst he <;> rfl
          · apply hc
            intro e he
            simp at he
            subst he
            rfl
        · apply hc
          intro e he
          simp at he
    · apply hc
      intro e he
      simp at he

/-- The invocation `bcopy /y a b` where only `b` exists. -/
theorem main_missing_source_witness :
    parseArgs (["bcopy", "/y", "a", "b"].drop 1) Options.initial =
        some { verify := false, overwrite := true, skip := false, source := "a",
               destination := "b" } ∧
      oneFile "b" [2] "a" = none ∧
      (main ⟨"C:", id, String.append, 'y'⟩ (oneFile "b" [2]) ["bcopy", "/y", "a", "b"]).fs =
        oneFile "b" [2] :=
  ⟨by decide, by decide,
    (main_missing_source ⟨"C:", id, String.append, 'y'⟩ (oneFile "b" [2])
      ["bcopy", "/y", "a", "b"]
      { verify := false, overwrite := true, skip := false, source := "a", destination := "b" }
      (by decide) (by decide)).1⟩

end BetterCopy
